import Mathlib

/-!
# Verification of the plm-config-as-code diff engine

Shallow embedding of the row-reconciliation / changeset-generation core of
the repository (the TypeScript sources `src/diff.ts`, `src/sync.ts` and the
unnamed variants `part_000`, `part_001`, `part_002`), together with proofs
about the embedded definitions.

Conventions of the embedding:
* a database row (`Row`) is an association list from column name to `Value`,
  mirroring a JavaScript object with its insertion order
  (`Object.entries` / `Object.keys` enumerate in that order);
* JavaScript `Map` objects are association lists with replace-on-set
  semantics (`mapSet` / `mapGet`), matching `Map.prototype.set/get/has`;
* exceptions are `Except String`; the `try { ... } catch {}` around the
  target-side row fetch is an explicit `match` discarding the error;
* JavaScript numbers are modelled as rationals (`ℚ`); `NaN` is represented
  by `Option.none` where it can arise (`Number(...)` of a non-numeric
  string).  The claims exercised here only evaluate numeric conversions on
  plain decimal literals, where the rational model agrees with IEEE-754
  behaviour.
-/

namespace PlmDiff

/-- A JavaScript scalar value as it appears in a fetched row: `null`,
`undefined` (absent property), a number, a boolean, a string, or a `Date`
object (carried as its millisecond epoch value, as produced by the `pg`
driver for timestamp columns; `DATE` columns arrive as strings because of
`types.setTypeParser(1082, v => v)`). -/
inductive Value where
  | vnull
  | vundef
  | vnum (q : ℚ)
  | vbool (b : Bool)
  | vstr (s : String)
  | vtime (ms : ℤ)
deriving Repr, DecidableEq

/-- Models JavaScript `String(v)`.  Exact for `null`, `undefined`, booleans,
strings, and integer-valued numbers (the only numbers the theorems below
evaluate it on); non-integral rationals and `Date` objects are rendered
through an injective placeholder format, standing in for the engine's
decimal / locale rendering. -/
def jsString : Value → String
  | .vnull => "null"
  | .vundef => "undefined"
  | .vnum q => if q.den = 1 then toString q.num else toString q.num ++ "/" ++ toString q.den
  | .vbool b => if b then "true" else "false"
  | .vstr s => s
  | .vtime ms => "Date(" ++ toString ms ++ ")"

/-- A fetched database row: column name ↦ value, in column order. -/
abbrev Row : Type := List (String × Value)

/-- JavaScript property read `r[c]`: the value stored under `c`, or
`undefined` when the row has no such column. -/
def rowGet (r : Row) (c : String) : Value :=
  match r.find? (fun p => p.1 = c) with
  | some p => p.2
  | none => Value.vundef

/-- Primary-key column list of one table (type `TablePK` in the source). -/
abbrev TablePK : Type := List String

/-- `src/diff.ts` (and `src/sync.ts`, `part_001`):
`const rowKey = (r, pk) => pk.map(k => String(r[k])).join("|")`. -/
def rowKey (r : Row) (pk : List String) : String :=
  String.intercalate "|" (pk.map (fun k => jsString (rowGet r k)))

/-- `String(v).replace(/'/g, "''")`: double every single quote (the regex
replace, modelled character-wise). -/
def escapeQuotes (s : String) : String :=
  ⟨s.data.flatMap (fun c => if c = '\'' then ['\'', '\''] else [c])⟩

/-- `src/diff.ts`: `yamlValue` — `null` prints as `null`, numbers and
booleans via `String(v)`, everything else single-quoted with `'` doubled. -/
def yamlValue (v : Value) : String :=
  match v with
  | .vnull => "null"
  | .vnum q => jsString (.vnum q)
  | .vbool b => jsString (.vbool b)
  | _ => "'" ++ escapeQuotes (jsString v) ++ "'"

/-- `src/diff.ts`: `whereClause` — `pk.map(k => k + " = " + yamlValue(r[k])).join(" AND ")`. -/
def whereClause (r : Row) (pk : List String) : String :=
  String.intercalate " AND " (pk.map (fun k => k ++ " = " ++ yamlValue (rowGet r k)))

/-! ## JavaScript `Map` model -/

/-- `Map.prototype.set`: replace the binding in place if the key exists,
otherwise append it (JS maps preserve insertion order). -/
def mapSet {α : Type} : List (String × α) → String → α → List (String × α)
  | [], k, v => [(k, v)]
  | (k', v') :: rest, k, v =>
    if k' = k then (k, v) :: rest else (k', v') :: mapSet rest k v

/-- `Map.prototype.get` (as an `Option`). -/
def mapGet {α : Type} : List (String × α) → String → Option α
  | [], _ => none
  | (k', v') :: rest, k => if k' = k then some v' else mapGet rest k

/-- `Map.prototype.has`. -/
def mapHas {α : Type} (m : List (String × α)) (k : String) : Bool :=
  (mapGet m k).isSome

/-- `new Map(rows.map(r => [rowKey(r, pk), r]))`: later duplicate keys
overwrite earlier ones. -/
def buildRowMap (rows : List Row) (pk : List String) : List (String × Row) :=
  rows.foldl (fun m r => mapSet m (rowKey r pk) r) []

theorem mapGet_mapSet_self {α : Type} (m : List (String × α)) (k : String) (v : α) :
    mapGet (mapSet m k v) k = some v := by
  induction m with
  | nil => simp [mapSet, mapGet]
  | cons p rest ih =>
    by_cases h : p.1 = k
    · simp [mapSet, mapGet, h]
    · simp [mapSet, mapGet, h, ih]

theorem mapGet_mapSet_ne {α : Type} (m : List (String × α)) (k k' : String) (v : α)
    (h : k ≠ k') : mapGet (mapSet m k v) k' = mapGet m k' := by
  induction m with
  | nil => simp [mapSet, mapGet, h]
  | cons p rest ih =>
    by_cases hp : p.1 = k
    · simp [mapSet, mapGet, hp, h]
    · by_cases hp' : p.1 = k'
      · simp [mapSet, mapGet, hp, hp', Ne.symm h]
      · simp [mapSet, mapGet, hp, hp', ih]

/-- The row keys of a list of rows, in row order. -/
def keysOf (rows : List Row) (pk : List String) : List String :=
  rows.map (fun r => rowKey r pk)

theorem buildRowMap_aux_get_of_not_mem (rows : List Row) (pk : List String)
    (m : List (String × Row)) (k : String) (h : k ∉ keysOf rows pk) :
    mapGet (rows.foldl (fun m r => mapSet m (rowKey r pk) r) m) k = mapGet m k := by
  induction rows generalizing m with
  | nil => rfl
  | cons r rest ih =>
    simp only [keysOf, List.map_cons, List.mem_cons, not_or] at h
    simp only [List.foldl_cons]
    rw [ih _ (by simpa [keysOf] using h.2), mapGet_mapSet_ne _ _ _ _ (fun he => h.1 he.symm)]

theorem buildRowMap_aux_isSome_of_mem (rows : List Row) (pk : List String)
    (m : List (String × Row)) (k : String) (h : k ∈ keysOf rows pk) :
    (mapGet (rows.foldl (fun m r => mapSet m (rowKey r pk) r) m) k).isSome := by
  induction rows generalizing m with
  | nil => simp [keysOf] at h
  | cons r rest ih =>
    simp only [List.foldl_cons]
    by_cases hr : k ∈ keysOf rest pk
    · exact ih _ hr
    · simp only [keysOf, List.map_cons, List.mem_cons] at h
      rcases h with h | h
      · rw [buildRowMap_aux_get_of_not_mem rest pk _ k hr, h, mapGet_mapSet_self]
        rfl
      · exact absurd h hr

theorem mapHas_buildRowMap (rows : List Row) (pk : List String) (k : String) :
    mapHas (buildRowMap rows pk) k = true ↔ k ∈ keysOf rows pk := by
  constructor
  · intro h
    by_contra hk
    rw [mapHas, buildRowMap, buildRowMap_aux_get_of_not_mem rows pk [] k hk] at h
    simp [mapGet] at h
  · intro h
    exact buildRowMap_aux_isSome_of_mem rows pk [] k h

theorem buildRowMap_aux_get_of_nodup (rows : List Row) (pk : List String) :
    ∀ (m : List (String × Row)) (r : Row), (keysOf rows pk).Nodup → r ∈ rows →
    mapGet (rows.foldl (fun m r => mapSet m (rowKey r pk) r) m) (rowKey r pk) = some r := by
  induction rows with
  | nil => intro m r _ hr; simp at hr
  | cons x rest ih =>
    intro m r hnd hr
    simp only [keysOf, List.map_cons, List.nodup_cons] at hnd
    simp only [List.foldl_cons]
    rcases List.mem_cons.mp hr with h | h
    · subst h
      rw [buildRowMap_aux_get_of_not_mem rest pk _ _ (by simpa [keysOf] using hnd.1),
        mapGet_mapSet_self]
    · exact ih _ r hnd.2 h

theorem buildRowMap_get_of_nodup (rows : List Row) (pk : List String) (r : Row)
    (hnd : (keysOf rows pk).Nodup) (hr : r ∈ rows) :
    mapGet (buildRowMap rows pk) (rowKey r pk) = some r :=
  buildRowMap_aux_get_of_nodup rows pk [] r hnd hr

/-! ## Changeset builders (`src/diff.ts` lines 151–193) -/

/-- One `- column:` block inside an insert/update changeset. -/
def colChunk (c : String) (v : Value) : String :=
  "            - column:\n                name: " ++ c ++
  "\n                value: " ++ yamlValue v

/-- The `id:` field of an insert changeset: `${t}-insert-${rowKey(r, pk)}`. -/
def insertId (t : String) (r : Row) (pk : List String) : String :=
  t ++ "-insert-" ++ rowKey r pk

/-- The `id:` field of an update changeset: `${t}-update-${rowKey(r, pk)}`. -/
def updateId (t : String) (r : Row) (pk : List String) : String :=
  t ++ "-update-" ++ rowKey r pk

/-- The `id:` field of a delete changeset: `${t}-delete-${rowKey(r, pk)}`. -/
def deleteId (t : String) (r : Row) (pk : List String) : String :=
  t ++ "-delete-" ++ rowKey r pk

/-- `src/diff.ts` `insertCS`: the full YAML text of one insert changeset. -/
def insertCS (t : String) (r : Row) (pk : List String) : String :=
  ("\n- changeSet:\n    id: " ++ insertId t r pk) ++
  ("\n    author: auto\n    changes:\n      - insert:\n          tableName: " ++ t ++
    "\n          columns:\n" ++
    String.intercalate "\n" (r.map (fun p => colChunk p.1 p.2)))

/-- `src/diff.ts` `updateCS`: one update changeset carrying the columns in
`cols` (the caller passes the changed columns) and a `where:` over the key. -/
def updateCS (t : String) (r : Row) (cols : List String) (pk : List String) : String :=
  ("\n- changeSet:\n    id: " ++ updateId t r pk) ++
  ("\n    author: auto\n    changes:\n      - update:\n          tableName: " ++ t ++
    "\n          columns:\n" ++
    String.intercalate "\n" (cols.map (fun c => colChunk c (rowGet r c))) ++
    "\n          where: " ++ whereClause r pk)

/-- `src/diff.ts` `deleteCS`: one delete changeset. -/
def deleteCS (t : String) (r : Row) (pk : List String) : String :=
  ("\n- changeSet:\n    id: " ++ deleteId t r pk) ++
  ("\n    author: auto\n    changes:\n      - delete:\n          tableName: " ++ t ++
    "\n          where: " ++ whereClause r pk)

/-! ## Row reconciliation (`src/diff.ts` `diffTable`, lines 196–237) -/

/-- `Object.keys(r).filter(c => String(r[c]) !== String(tRow[c]))`: the
columns of the reference row whose `String()` renderings differ between the
two rows. -/
def changedCols (r tRow : Row) : List String :=
  (r.map Prod.fst).filter (fun c => jsString (rowGet r c) != jsString (rowGet tRow c))

/-- Reference rows whose key is absent from the target map (the insert loop
condition of `diffTable`). -/
def insertRows (refRows tgtRows : List Row) (pk : List String) : List Row :=
  refRows.filter (fun r => !mapHas (buildRowMap tgtRows pk) (rowKey r pk))

/-- Target rows whose key is absent from the reference map (the delete loop
condition of `diffTable`). -/
def deleteRows (refRows tgtRows : List Row) (pk : List String) : List Row :=
  tgtRows.filter (fun r => !mapHas (buildRowMap refRows pk) (rowKey r pk))

/-- Reference rows present in the target map with at least one changed
column, paired with the matching target row (the update loop of
`diffTable`). -/
def updatePairs (refRows tgtRows : List Row) (pk : List String) : List (Row × Row) :=
  refRows.filterMap (fun r =>
    match mapGet (buildRowMap tgtRows pk) (rowKey r pk) with
    | none => none
    | some tRow => if (changedCols r tRow).isEmpty then none else some (r, tRow))

/-- Reference rows present in the target map with no changed column: the
implicit `Unchanged` class (the update loop's skip branch). -/
def unchangedRows (refRows tgtRows : List Row) (pk : List String) : List Row :=
  refRows.filterMap (fun r =>
    match mapGet (buildRowMap tgtRows pk) (rowKey r pk) with
    | none => none
    | some tRow => if (changedCols r tRow).isEmpty then some r else none)

/-- The per-table diff record of `src/diff.ts` (`TableDiff`): the changeset
YAML fragments for one table. -/
structure TableDiff where
  table : String
  inserts : List String
  updates : List String
  deletes : List String
deriving Repr, DecidableEq

/-- `src/diff.ts` `diffTable`.  `refFetch`/`tgtFetch` stand for the two
`SELECT * FROM t` calls; the reference query is awaited bare (its failure
propagates), the target query sits in `try {...} catch {}` so its failure
silently leaves `tgtRows = []`.  Returns `none` when the table has no
primary key or no differences. -/
def diffTable (t : String) (pk : List String)
    (refFetch tgtFetch : Except String (List Row)) :
    Except String (Option TableDiff) :=
  if pk.isEmpty then .ok none
  else
    match refFetch with
    | .error e => .error e
    | .ok refRows =>
      let tgtRows := match tgtFetch with
        | .ok rows => rows
        | .error _ => []
      let inserts := (insertRows refRows tgtRows pk).map (fun r => insertCS t r pk)
      let updates := (updatePairs refRows tgtRows pk).map
          (fun p => updateCS t p.1 (changedCols p.1 p.2) pk)
      let deletes := (deleteRows refRows tgtRows pk).map (fun r => deleteCS t r pk)
      if inserts.isEmpty && updates.isEmpty && deletes.isEmpty then .ok none
      else .ok (some ⟨t, inserts, updates, deletes⟩)

/-! ## Row classification (claim C1) -/

/-- Exactly one of four propositions holds. -/
def ExactlyOne (P₁ P₂ P₃ P₄ : Prop) : Prop :=
  (P₁ ∨ P₂ ∨ P₃ ∨ P₄) ∧
  ¬(P₁ ∧ P₂) ∧ ¬(P₁ ∧ P₃) ∧ ¬(P₁ ∧ P₄) ∧ ¬(P₂ ∧ P₃) ∧ ¬(P₂ ∧ P₄) ∧ ¬(P₃ ∧ P₄)

theorem mem_keysOf_insertRows (refRows tgtRows : List Row) (pk : List String) (k : String) :
    k ∈ keysOf (insertRows refRows tgtRows pk) pk ↔
      k ∈ keysOf refRows pk ∧ k ∉ keysOf tgtRows pk := by
  simp only [keysOf, insertRows, List.mem_map, List.mem_filter]
  constructor
  · rintro ⟨r, ⟨hr, hcond⟩, rfl⟩
    refine ⟨⟨r, hr, rfl⟩, fun hmem => ?_⟩
    rw [Bool.not_eq_true', ← Bool.not_eq_true] at hcond
    exact hcond ((mapHas_buildRowMap tgtRows pk _).mpr (by simpa [keysOf] using hmem))
  · rintro ⟨⟨r, hr, rfl⟩, hnot⟩
    refine ⟨r, ⟨hr, ?_⟩, rfl⟩
    rw [Bool.not_eq_true', ← Bool.not_eq_true]
    exact fun h => hnot (by simpa [keysOf] using (mapHas_buildRowMap tgtRows pk _).mp h)

theorem mem_keysOf_deleteRows (refRows tgtRows : List Row) (pk : List String) (k : String) :
    k ∈ keysOf (deleteRows refRows tgtRows pk) pk ↔
      k ∈ keysOf tgtRows pk ∧ k ∉ keysOf refRows pk := by
  simp only [keysOf, deleteRows, List.mem_map, List.mem_filter]
  constructor
  · rintro ⟨r, ⟨hr, hcond⟩, rfl⟩
    refine ⟨⟨r, hr, rfl⟩, fun hmem => ?_⟩
    rw [Bool.not_eq_true', ← Bool.not_eq_true] at hcond
    exact hcond ((mapHas_buildRowMap refRows pk _).mpr (by simpa [keysOf] using hmem))
  · rintro ⟨⟨r, hr, rfl⟩, hnot⟩
    refine ⟨r, ⟨hr, ?_⟩, rfl⟩
    rw [Bool.not_eq_true', ← Bool.not_eq_true]
    exact fun h => hnot (by simpa [keysOf] using (mapHas_buildRowMap refRows pk _).mp h)

theorem mem_keysOf_updatePairs (refRows tgtRows : List Row) (pk : List String) (k : String) :
    k ∈ keysOf ((updatePairs refRows tgtRows pk).map Prod.fst) pk ↔
      ∃ r ∈ refRows, rowKey r pk = k ∧
        ∃ tRow, mapGet (buildRowMap tgtRows pk) k = some tRow ∧
          (changedCols r tRow).isEmpty = false := by
  simp only [keysOf, updatePairs, List.map_map, List.mem_map, List.mem_filterMap]
  constructor
  · rintro ⟨p, ⟨r, hr, hmatch⟩, rfl⟩
    rcases hget : mapGet (buildRowMap tgtRows pk) (rowKey r pk) with _ | tRow <;>
      rw [hget] at hmatch
    · simp at hmatch
    · by_cases hch : (changedCols r tRow).isEmpty <;> simp [hch] at hmatch
      subst hmatch
      exact ⟨r, hr, rfl, tRow, hget, by simpa using hch⟩
  · rintro ⟨r, hr, rfl, tRow, hget, hch⟩
    exact ⟨(r, tRow), ⟨r, hr, by simp [hget, hch]⟩, rfl⟩

theorem mem_keysOf_unchangedRows (refRows tgtRows : List Row) (pk : List String) (k : String) :
    k ∈ keysOf (unchangedRows refRows tgtRows pk) pk ↔
      ∃ r ∈ refRows, rowKey r pk = k ∧
        ∃ tRow, mapGet (buildRowMap tgtRows pk) k = some tRow ∧
          (changedCols r tRow).isEmpty = true := by
  simp only [keysOf, unchangedRows, List.mem_map, List.mem_filterMap]
  constructor
  · rintro ⟨r', ⟨r, hr, hmatch⟩, rfl⟩
    rcases hget : mapGet (buildRowMap tgtRows pk) (rowKey r pk) with _ | tRow <;>
      rw [hget] at hmatch
    · simp at hmatch
    · by_cases hch : (changedCols r tRow).isEmpty <;> simp [hch] at hmatch
      subst hmatch
      exact ⟨r, hr, rfl, tRow, hget, by simpa using hch⟩
  · rintro ⟨r, hr, rfl, tRow, hget, hch⟩
    exact ⟨r, ⟨r, hr, by simp [hget, hch]⟩, rfl⟩

theorem map_fst_updatePairs_sublist (refRows tgtRows : List Row) (pk : List String) :
    ((updatePairs refRows tgtRows pk).map Prod.fst).Sublist refRows := by
  induction refRows with
  | nil => simp [updatePairs]
  | cons r rest ih =>
    simp only [updatePairs, List.filterMap_cons]
    rcases mapGet (buildRowMap tgtRows pk) (rowKey r pk) with _ | tRow
    · exact (ih).cons r
    · by_cases hch : (changedCols r tRow).isEmpty
      · simp only [hch, if_true]
        exact (ih).cons r
      · simp only [hch, if_false, List.map_cons]
        exact (ih).cons₂ r

theorem unchangedRows_sublist (refRows tgtRows : List Row) (pk : List String) :
    (unchangedRows refRows tgtRows pk).Sublist refRows := by
  induction refRows with
  | nil => simp [unchangedRows]
  | cons r rest ih =>
    simp only [unchangedRows, List.filterMap_cons]
    rcases mapGet (buildRowMap tgtRows pk) (rowKey r pk) with _ | tRow
    · exact (ih).cons r
    · by_cases hch : (changedCols r tRow).isEmpty
      · simp only [hch, if_true]
        exact (ih).cons₂ r
      · simp only [hch, if_false]
        exact (ih).cons r

theorem rowKey_injOn_of_nodup (refRows : List Row) (pk : List String)
    (href : (keysOf refRows pk).Nodup) :
    ∀ r ∈ refRows, ∀ r' ∈ refRows, rowKey r pk = rowKey r' pk → r = r' := by
  have h : (refRows.map (fun r => rowKey r pk)).Nodup := href
  intro r hr r' hr' hk
  exact List.inj_on_of_nodup_map h hr hr' hk

/-- C1.  Row classification completeness for `diffTable`'s reconciliation:
every key of `reference ∪ target` falls in exactly one of the four classes
Insert / Update / Unchanged / Delete computed by the reconciler, and each
class lists each key at most once.  The `Nodup` hypotheses are the data
model's RowKey-uniqueness invariant (one row per key per side). -/
theorem diffTable_classification_exactlyOne
    (refRows tgtRows : List Row) (pk : List String) (k : String)
    (href : (keysOf refRows pk).Nodup) (htgt : (keysOf tgtRows pk).Nodup)
    (hk : k ∈ keysOf refRows pk ∨ k ∈ keysOf tgtRows pk) :
    ExactlyOne (k ∈ keysOf (insertRows refRows tgtRows pk) pk)
      (k ∈ keysOf ((updatePairs refRows tgtRows pk).map Prod.fst) pk)
      (k ∈ keysOf (unchangedRows refRows tgtRows pk) pk)
      (k ∈ keysOf (deleteRows refRows tgtRows pk) pk) ∧
    (keysOf (insertRows refRows tgtRows pk) pk).Nodup ∧
    (keysOf ((updatePairs refRows tgtRows pk).map Prod.fst) pk).Nodup ∧
    (keysOf (unchangedRows refRows tgtRows pk) pk).Nodup ∧
    (keysOf (deleteRows refRows tgtRows pk) pk).Nodup := by
  have huniq := rowKey_injOn_of_nodup refRows pk href
  have hIns := mem_keysOf_insertRows refRows tgtRows pk k
  have hUpd := mem_keysOf_updatePairs refRows tgtRows pk k
  have hUnch := mem_keysOf_unchangedRows refRows tgtRows pk k
  have hDel := mem_keysOf_deleteRows refRows tgtRows pk k
  have hmem_of_get : ∀ tRow, mapGet (buildRowMap tgtRows pk) k = some tRow →
      k ∈ keysOf tgtRows pk := by
    intro tRow hget
    exact (mapHas_buildRowMap tgtRows pk k).mp (by simp [mapHas, hget])
  constructor
  · rw [ExactlyOne, hIns, hUpd, hUnch, hDel]
    by_cases hrk : k ∈ keysOf refRows pk
    · obtain ⟨r, hr, hkey⟩ : ∃ r ∈ refRows, rowKey r pk = k := by
        simpa [keysOf] using hrk
      by_cases htk : k ∈ keysOf tgtRows pk
      · -- present on both sides: Update or Unchanged
        obtain ⟨tRow, hget⟩ : ∃ tRow, mapGet (buildRowMap tgtRows pk) k = some tRow := by
          have := (mapHas_buildRowMap tgtRows pk k).mpr htk
          simpa [mapHas, Option.isSome_iff_exists] using this
        have hexcl : ¬((∃ r ∈ refRows, rowKey r pk = k ∧ ∃ tRow,
              mapGet (buildRowMap tgtRows pk) k = some tRow ∧
              (changedCols r tRow).isEmpty = false) ∧
            (∃ r ∈ refRows, rowKey r pk = k ∧ ∃ tRow,
              mapGet (buildRowMap tgtRows pk) k = some tRow ∧
              (changedCols r tRow).isEmpty = true)) := by
          rintro ⟨⟨r₁, hr₁, hk₁, t₁, hget₁, hch₁⟩, ⟨r₂, hr₂, hk₂, t₂, hget₂, hch₂⟩⟩
          have hrr : r₁ = r₂ := huniq r₁ hr₁ r₂ hr₂ (hk₁.trans hk₂.symm)
          have htt : t₁ = t₂ := by
            rw [hget₁] at hget₂; exact Option.some.inj hget₂
          subst hrr; subst htt
          rw [hch₁] at hch₂; exact Bool.false_ne_true hch₂
        by_cases hch : (changedCols r tRow).isEmpty
        · -- Unchanged
          refine ⟨Or.inr (Or.inr (Or.inl ⟨r, hr, hkey, tRow, hget, hch⟩)), ?_, ?_, ?_, ?_, ?_, ?_⟩
          · rintro ⟨⟨-, hno⟩, -⟩; exact hno htk
          · rintro ⟨⟨-, hno⟩, -⟩; exact hno htk
          · rintro ⟨⟨-, hno⟩, -⟩; exact hno htk
          · exact fun h => hexcl h
          · rintro ⟨-, ⟨-, hno⟩⟩; exact hno hrk
          · rintro ⟨-, ⟨-, hno⟩⟩; exact hno hrk
        · -- Update
          refine ⟨Or.inr (Or.inl ⟨r, hr, hkey, tRow, hget, by simpa using hch⟩),
            ?_, ?_, ?_, ?_, ?_, ?_⟩
          · rintro ⟨⟨-, hno⟩, -⟩; exact hno htk
          · rintro ⟨⟨-, hno⟩, -⟩; exact hno htk
          · rintro ⟨⟨-, hno⟩, -⟩; exact hno htk
          · exact fun h => hexcl h
          · rintro ⟨-, ⟨-, hno⟩⟩; exact hno hrk
          · rintro ⟨-, ⟨-, hno⟩⟩; exact hno hrk
      · -- only in reference: Insert
        refine ⟨Or.inl ⟨hrk, htk⟩, ?_, ?_, ?_, ?_, ?_, ?_⟩
        · rintro ⟨-, ⟨r', -, -, tRow, hget, -⟩⟩; exact htk (hmem_of_get tRow hget)
        · rintro ⟨-, ⟨r', -, -, tRow, hget, -⟩⟩; exact htk (hmem_of_get tRow hget)
        · rintro ⟨-, ⟨hno, -⟩⟩; exact htk hno
        · rintro ⟨⟨r', -, -, tRow, hget, -⟩, -⟩; exact htk (hmem_of_get tRow hget)
        · rintro ⟨⟨r', -, -, tRow, hget, -⟩, -⟩; exact htk (hmem_of_get tRow hget)
        · rintro ⟨-, ⟨-, hno⟩⟩; exact hno hrk
    · -- only in target: Delete
      have htk : k ∈ keysOf tgtRows pk := hk.resolve_left hrk
      have hnoref : ∀ r ∈ refRows, rowKey r pk ≠ k := by
        intro r hr he
        exact hrk (by simpa [keysOf] using ⟨r, hr, he⟩)
      refine ⟨Or.inr (Or.inr (Or.inr ⟨htk, hrk⟩)), ?_, ?_, ?_, ?_, ?_, ?_⟩
      · rintro ⟨⟨hno, -⟩, -⟩; exact hrk hno
      · rintro ⟨⟨hno, -⟩, -⟩; exact hrk hno
      · rintro ⟨⟨hno, -⟩, -⟩; exact hrk hno
      · rintro ⟨⟨r', hr', hkr', -⟩, -⟩; exact hnoref r' hr' hkr'
      · rintro ⟨⟨r', hr', hkr', -⟩, -⟩; exact hnoref r' hr' hkr'
      · rintro ⟨⟨r', hr', hkr', -⟩, -⟩; exact hnoref r' hr' hkr'
  · refine ⟨?_, ?_, ?_, ?_⟩
    · exact ((List.filter_sublist refRows).map (fun r => rowKey r pk)).nodup href
    · exact ((map_fst_updatePairs_sublist refRows tgtRows pk).map
        (fun r => rowKey r pk)).nodup href
    · exact ((unchangedRows_sublist refRows tgtRows pk).map
        (fun r => rowKey r pk)).nodup href
    · exact ((List.filter_sublist tgtRows).map (fun r => rowKey r pk)).nodup htgt

/-- Reference rows of the spec's running example: `{id:1,name:'a'}`,
`{id:2,name:'b'}`. -/
def exRefRows : List Row :=
  [[("id", .vnum 1), ("name", .vstr "a")], [("id", .vnum 2), ("name", .vstr "b")]]

/-- Target rows of the spec's running example: `{id:1,name:'x'}`,
`{id:3,name:'c'}`. -/
def exTgtRows : List Row :=
  [[("id", .vnum 1), ("name", .vstr "x")], [("id", .vnum 3), ("name", .vstr "c")]]

/-- Witness for C1: the classification theorem applied to the spec's
running example at key `"1"` (present on both sides, with `name`
changed). -/
theorem diffTable_classification_exactlyOne_witness :
    ExactlyOne ("1" ∈ keysOf (insertRows exRefRows exTgtRows ["id"]) ["id"])
      ("1" ∈ keysOf ((updatePairs exRefRows exTgtRows ["id"]).map Prod.fst) ["id"])
      ("1" ∈ keysOf (unchangedRows exRefRows exTgtRows ["id"]) ["id"])
      ("1" ∈ keysOf (deleteRows exRefRows exTgtRows ["id"]) ["id"]) ∧
    (keysOf (insertRows exRefRows exTgtRows ["id"]) ["id"]).Nodup ∧
    (keysOf ((updatePairs exRefRows exTgtRows ["id"]).map Prod.fst) ["id"]).Nodup ∧
    (keysOf (unchangedRows exRefRows exTgtRows ["id"]) ["id"]).Nodup ∧
    (keysOf (deleteRows exRefRows exTgtRows ["id"]) ["id"]).Nodup :=
  diffTable_classification_exactlyOne exRefRows exTgtRows ["id"] "1"
    (by decide) (by decide) (Or.inl (by decide))

/-! ## Foreign keys and topological sort (`src/diff.ts` lines 126–148) -/

/-- A foreign-key edge (`type FK` in `src/diff.ts`). -/
structure FK where
  childTable : String
  parentTable : String
deriving Repr, DecidableEq

/-- Adjacency of the dependency graph: table ↦ set of parent tables
(insertion-ordered, as a JS `Map` of `Set`s). -/
abbrev Graph : Type := List (String × List String)

/-- JS `Set.prototype.add`: append if absent. -/
def setAdd (s : List String) (x : String) : List String :=
  if x ∈ s then s else s ++ [x]

/-- One step of `fks.forEach(fk => g.get(fk.childTable)?.add(fk.parentTable))`:
a no-op when the child table is not a key of the graph (optional chaining). -/
def fkStep (g : Graph) (fk : FK) : Graph :=
  match mapGet g fk.childTable with
  | some ps => mapSet g fk.childTable (setAdd ps fk.parentTable)
  | none => g

/-- Graph construction of `topoSortTables`: every table becomes a key with
an empty set, then each foreign key adds the parent to the child's set. -/
def buildGraph (tables : List String) (fks : List FK) : Graph :=
  fks.foldl fkStep
    (tables.foldl (fun g t => mapSet g t ([] : List String)) ([] : Graph))

/-- The mutable state of the `dfs` closure in `topoSortTables`. -/
structure TopoState where
  res : List String
  v : List String
  visiting : List String
deriving Repr, DecidableEq

/-- The `dfs` closure of `topoSortTables`: throws `FK cycle at t` when `t`
is already on the visiting stack; skips visited nodes; otherwise recurses
into the parents (`g.get(t)!.forEach(dfs)` — reading the adjacency of a
missing key is a TypeError) and then pushes `t`.  `fuel` bounds the
recursion depth; the JS recursion terminates because `visiting` grows along
any call chain, and callers pass fuel exceeding the table count, so the
fuel-exhaustion branch is unreachable. -/
def dfsAux (g : Graph) : Nat → String → TopoState → Except String TopoState
  | 0, _, _ => .error "out of fuel"
  | fuel + 1, t, st =>
    if t ∈ st.visiting then .error ("FK cycle at " ++ t)
    else if t ∈ st.v then .ok st
    else
      match mapGet g t with
      | none => .error ("TypeError: adjacency of " ++ t ++ " is undefined")
      | some parents =>
        match parents.foldlM (fun st' p => dfsAux g fuel p st')
            { st with visiting := st.visiting ++ [t] } with
        | .error e => .error e
        | .ok st2 =>
          .ok { res := st2.res ++ [t], v := st2.v ++ [t], visiting := st2.visiting.erase t }

/-- Sequential `forEach(dfs)` over a list of nodes, threading the state and
propagating the first exception (both the parent loop inside `dfs` and the
top-level `tables.forEach(dfs)`). -/
def dfsList (g : Graph) (fuel : Nat) (l : List String) (st : TopoState) :
    Except String TopoState :=
  l.foldlM (fun st' p => dfsAux g fuel p st') st

theorem dfsList_nil (g : Graph) (fuel : Nat) (st : TopoState) :
    dfsList g fuel [] st = .ok st := rfl

theorem dfsList_cons (g : Graph) (fuel : Nat) (p : String) (ps : List String)
    (st : TopoState) :
    dfsList g fuel (p :: ps) st =
      match dfsAux g fuel p st with
      | .error e => .error e
      | .ok st' => dfsList g fuel ps st' := by
  rw [dfsList, List.foldlM_cons]
  rcases dfsAux g fuel p st with e | st' <;> rfl

theorem dfsAux_succ (g : Graph) (fuel : Nat) (t : String) (st : TopoState) :
    dfsAux g (fuel + 1) t st =
      if t ∈ st.visiting then .error ("FK cycle at " ++ t)
      else if t ∈ st.v then .ok st
      else
        match mapGet g t with
        | none => .error ("TypeError: adjacency of " ++ t ++ " is undefined")
        | some parents =>
          match dfsList g fuel parents { st with visiting := st.visiting ++ [t] } with
          | .error e => .error e
          | .ok st2 =>
            .ok { res := st2.res ++ [t], v := st2.v ++ [t],
                  visiting := st2.visiting.erase t } := rfl

/-- `src/diff.ts` `topoSortTables` (identical in `src/sync.ts`): DFS
topological sort, parents before children, raising on cycles. -/
def topoSortTables (tables : List String) (fks : List FK) : Except String (List String) :=
  match dfsList (buildGraph tables fks) (tables.length + 1) tables ⟨[], [], []⟩ with
  | .error e => .error e
  | .ok st => .ok st.res

/-- Membership in a JS set is preserved by `setAdd`. -/
theorem mem_setAdd_of_mem (s : List String) (x y : String) (h : y ∈ s) : y ∈ setAdd s x := by
  rw [setAdd]; split
  · exact h
  · exact List.mem_append_left _ h

/-- The added element belongs to the set after `setAdd`. -/
theorem mem_setAdd_self (s : List String) (x : String) : x ∈ setAdd s x := by
  rw [setAdd]; split
  · assumption
  · exact List.mem_append_right _ (List.mem_singleton.mpr rfl)

/-- Invariant maintained by `dfs`: the result list is duplicate-free, the
visited set and the result list have the same members, and every emitted
node's parents (per the graph) appear strictly before it in the result. -/
def TopoInv (g : Graph) (st : TopoState) : Prop :=
  st.res.Nodup ∧
  (∀ x, x ∈ st.v ↔ x ∈ st.res) ∧
  (∀ u ∈ st.res, ∀ ps, mapGet g u = some ps → ∀ p ∈ ps,
    ∃ l₁ l₂, st.res = l₁ ++ u :: l₂ ∧ p ∈ l₁)

/-- Post-condition of one successful `dfs` call (or a successful sequence
of them): the invariant still holds, the result list has only grown at the
end, the visited set has only grown, the visiting stack is restored, and
every newly visited node was not on the caller's visiting stack and is a
key of the graph. -/
def DfsPost (g : Graph) (st st' : TopoState) : Prop :=
  TopoInv g st' ∧
  (∃ r, st'.res = st.res ++ r) ∧
  (∀ x ∈ st.v, x ∈ st'.v) ∧
  st'.visiting = st.visiting ∧
  (∀ x ∈ st'.v, x ∈ st.v ∨ (x ∉ st.visiting ∧ (mapGet g x).isSome))

theorem dfsPost_refl (g : Graph) (st : TopoState) (hInv : TopoInv g st) :
    DfsPost g st st :=
  ⟨hInv, ⟨[], (List.append_nil _).symm⟩, fun _ hx => hx, rfl, fun _ hx => Or.inl hx⟩

theorem dfsPost_trans (g : Graph) (st₁ st₂ st₃ : TopoState)
    (h₁₂ : DfsPost g st₁ st₂) (h₂₃ : DfsPost g st₂ st₃) : DfsPost g st₁ st₃ := by
  obtain ⟨hInv₂, ⟨r₁, hres₁⟩, hv₁, hvis₁, hnew₁⟩ := h₁₂
  obtain ⟨hInv₃, ⟨r₂, hres₂⟩, hv₂, hvis₂, hnew₂⟩ := h₂₃
  refine ⟨hInv₃, ⟨r₁ ++ r₂, by rw [hres₂, hres₁, List.append_assoc]⟩,
    fun x hx => hv₂ x (hv₁ x hx), hvis₂.trans hvis₁, fun x hx => ?_⟩
  rcases hnew₂ x hx with h | ⟨hnv, hsome⟩
  · exact hnew₁ x h
  · exact Or.inr ⟨by rwa [hvis₁] at hnv, hsome⟩

theorem dfsAux_step (g : Graph) (fuel : Nat) (t : String) (st st' : TopoState)
    (hInv : TopoInv g st)
    (ihL : ∀ l s s', TopoInv g s → dfsList g fuel l s = .ok s' →
      DfsPost g s s' ∧ ∀ p ∈ l, p ∈ s'.v)
    (hok : dfsAux g (fuel + 1) t st = .ok st') :
    DfsPost g st st' ∧ t ∈ st'.v := by
  rw [dfsAux_succ] at hok
  by_cases h1 : t ∈ st.visiting
  · rw [if_pos h1] at hok; simp at hok
  rw [if_neg h1] at hok
  by_cases h2 : t ∈ st.v
  · rw [if_pos h2] at hok
    have hst := Except.ok.inj hok
    subst hst
    exact ⟨dfsPost_refl g st hInv, h2⟩
  rw [if_neg h2] at hok
  cases hpar : mapGet g t with
  | none => simp [hpar] at hok
  | some parents =>
    simp only [hpar] at hok
    cases hrec : dfsList g fuel parents { st with visiting := st.visiting ++ [t] } with
    | error e => simp [hrec] at hok
    | ok st2 =>
      simp only [hrec] at hok
      have hst' := Except.ok.inj hok
      obtain ⟨⟨hInv2, ⟨r2, hres2⟩, hv2, hvis2, hnew2⟩, hallp⟩ :=
        ihL parents { st with visiting := st.visiting ++ [t] } st2 hInv hrec
      have htv2 : t ∉ st2.v := by
        intro hx
        rcases hnew2 t hx with h | ⟨hnv, -⟩
        · exact h2 h
        · exact hnv (List.mem_append_right _ (List.mem_singleton.mpr rfl))
      have htres2 : t ∉ st2.res := fun hx => htv2 ((hInv2.2.1 t).mpr hx)
      subst hst'
      refine ⟨⟨⟨?_, ?_, ?_⟩, ⟨r2 ++ [t], ?_⟩, ?_, ?_, ?_⟩, ?_⟩
      · -- Nodup
        simp only [List.nodup_append, List.nodup_cons, List.nodup_nil,
          List.disjoint_singleton]
        exact ⟨hInv2.1, by simp, htres2⟩
      · -- membership iff
        intro x
        simp only [TopoState.v, TopoState.res, List.mem_append, List.mem_singleton]
        rw [hInv2.2.1 x]
      · -- parent decomposition
        intro u hu ps hps p hp
        rcases List.mem_append.mp hu with hu | hu
        · obtain ⟨l1, l2, heq, hpl⟩ := hInv2.2.2 u hu ps hps p hp
          exact ⟨l1, l2 ++ [t], by rw [heq]; simp, hpl⟩
        · have hut : u = t := List.mem_singleton.mp hu
          subst hut
          rw [hpar] at hps
          have hpp : parents = ps := Option.some.inj hps
          subst hpp
          exact ⟨st2.res, [], rfl, (hInv2.2.1 p).mp (hallp p hp)⟩
      · -- result grows by appending
        show st2.res ++ [t] = st.res ++ (r2 ++ [t])
        rw [hres2]
        exact (List.append_assoc _ _ _)
      · -- visited grows
        exact fun x hx => List.mem_append_left _ (hv2 x hx)
      · -- visiting stack restored
        show st2.visiting.erase t = st.visiting
        rw [hvis2, List.erase_append_right _ h1]
        simp
      · -- new visits were not on the caller's stack and are graph keys
        intro x hx
        rcases List.mem_append.mp hx with hx | hx
        · rcases hnew2 x hx with h | ⟨hnv, hs⟩
          · exact Or.inl h
          · exact Or.inr ⟨fun hc => hnv (List.mem_append_left _ hc), hs⟩
        · have hxt : x = t := List.mem_singleton.mp hx
          subst hxt
          exact Or.inr ⟨h1, by simp [hpar]⟩
      · -- t itself is visited
        exact List.mem_append_right _ (List.mem_singleton.mpr rfl)

theorem dfsList_inv_of_aux (g : Graph) (fuel : Nat)
    (hA : ∀ t st st', TopoInv g st → dfsAux g fuel t st = .ok st' →
      DfsPost g st st' ∧ t ∈ st'.v) :
    ∀ l st st', TopoInv g st → dfsList g fuel l st = .ok st' →
      DfsPost g st st' ∧ ∀ p ∈ l, p ∈ st'.v := by
  intro l
  induction l with
  | nil =>
    intro st st' hInv hok
    rw [dfsList_nil] at hok
    have hst := Except.ok.inj hok
    subst hst
    exact ⟨dfsPost_refl g st hInv, by simp⟩
  | cons p ps ihl =>
    intro st st' hInv hok
    rw [dfsList_cons] at hok
    cases hmid : dfsAux g fuel p st with
    | error e => rw [hmid] at hok; simp at hok
    | ok stm =>
      rw [hmid] at hok
      obtain ⟨hpost₁, hpv⟩ := hA p st stm hInv hmid
      obtain ⟨hpost₂, hallv⟩ := ihl stm st' hpost₁.1 hok
      refine ⟨dfsPost_trans g st stm st' hpost₁ hpost₂, fun q hq => ?_⟩
      rcases List.mem_cons.mp hq with hq | hq
      · subst hq
        exact hpost₂.2.2.1 q hpv
      · exact hallv q hq

/-- Combined invariant statement for `dfsAux` and `dfsList`, by induction on
the fuel. -/
theorem dfs_inv (fuel : Nat) :
    (∀ g t st st', TopoInv g st → dfsAux g fuel t st = .ok st' →
      DfsPost g st st' ∧ t ∈ st'.v) ∧
    (∀ g l st st', TopoInv g st → dfsList g fuel l st = .ok st' →
      DfsPost g st st' ∧ ∀ p ∈ l, p ∈ st'.v) := by
  induction fuel with
  | zero =>
    have hA : ∀ (g : Graph) t st st', TopoInv g st → dfsAux g 0 t st = .ok st' →
        DfsPost g st st' ∧ t ∈ st'.v := by
      intro g t st st' _ h
      simp [dfsAux] at h
    exact ⟨hA, fun g => dfsList_inv_of_aux g 0 (hA g)⟩
  | succ fuel ih =>
    have hA : ∀ (g : Graph) t st st', TopoInv g st → dfsAux g (fuel + 1) t st = .ok st' →
        DfsPost g st st' ∧ t ∈ st'.v := by
      intro g t st st' hInv hok
      exact dfsAux_step g fuel t st st' hInv (fun l s s' => ih.2 g l s s') hok
    exact ⟨hA, fun g => dfsList_inv_of_aux g (fuel + 1) (hA g)⟩

theorem tablesFold_isSome (tables : List String) :
    ∀ (g : Graph) (k : String),
    (mapGet (tables.foldl (fun g t => mapSet g t ([] : List String)) g) k).isSome ↔
      k ∈ tables ∨ (mapGet g k).isSome := by
  induction tables with
  | nil => intro g k; simp
  | cons t ts ih =>
    intro g k
    rw [List.foldl_cons, ih]
    by_cases h : t = k
    · subst h
      simp [mapGet_mapSet_self]
    · rw [mapGet_mapSet_ne _ _ _ _ h]
      simp only [List.mem_cons]
      constructor
      · rintro (hk | hk)
        · exact Or.inl (Or.inr hk)
        · exact Or.inr hk
      · rintro ((hk | hk) | hk)
        · exact absurd hk.symm h
        · exact Or.inl hk
        · exact Or.inr hk

theorem fkFold_isSome (fks : List FK) :
    ∀ (g : Graph) (k : String),
    (mapGet (fks.foldl
      fkStep g) k).isSome = (mapGet g k).isSome := by
  induction fks with
  | nil => intro g k; rfl
  | cons fk rest ih =>
    intro g k
    rw [List.foldl_cons]
    cases hc : mapGet g fk.childTable with
    | none => simp only [fkStep, hc]; exact ih g k
    | some ps =>
      simp only [fkStep, hc]
      rw [ih]
      by_cases h : fk.childTable = k
      · subst h
        rw [mapGet_mapSet_self, hc]
        rfl
      · rw [mapGet_mapSet_ne _ _ _ _ h]

theorem buildGraph_isSome_iff (tables : List String) (fks : List FK) (k : String) :
    (mapGet (buildGraph tables fks) k).isSome ↔ k ∈ tables := by
  rw [buildGraph, fkFold_isSome, tablesFold_isSome]
  simp [mapGet]

theorem fkFold_mono (fks : List FK) :
    ∀ (g : Graph) (c x : String) (ps : List String),
    mapGet g c = some ps → x ∈ ps →
    ∃ ps', mapGet (fks.foldl
      fkStep g) c = some ps' ∧ x ∈ ps' := by
  induction fks with
  | nil => intro g c x ps hget hx; exact ⟨ps, hget, hx⟩
  | cons fk rest ih =>
    intro g c x ps hget hx
    rw [List.foldl_cons]
    cases hc : mapGet g fk.childTable with
    | none => simp only [fkStep, hc]; exact ih g c x ps hget hx
    | some qs =>
      simp only [fkStep, hc]
      by_cases h : fk.childTable = c
      · subst h
        have hq : qs = ps := Option.some.inj (hc.symm.trans hget)
        subst hq
        exact ih _ _ x _ (mapGet_mapSet_self _ _ _) (mem_setAdd_of_mem _ _ _ hx)
      · exact ih _ _ x ps (by rw [mapGet_mapSet_ne _ _ _ _ h]; exact hget) hx

theorem fkFold_none (fks : List FK) :
    ∀ (g : Graph) (c : String), mapGet g c = none →
    mapGet (fks.foldl
      fkStep g) c = none := by
  induction fks with
  | nil => intro g c h; exact h
  | cons fk rest ih =>
    intro g c h
    rw [List.foldl_cons]
    cases hc : mapGet g fk.childTable with
    | none => simp only [fkStep, hc]; exact ih g c h
    | some qs =>
      simp only [fkStep, hc]
      by_cases he : fk.childTable = c
      · subst he
        rw [hc] at h
        exact absurd h (by simp)
      · exact ih _ c (by rw [mapGet_mapSet_ne _ _ _ _ he]; exact h)

theorem fkFold_parent_mem (fks : List FK) :
    ∀ (g : Graph) (fk : FK), fk ∈ fks →
    ∀ ps, mapGet (fks.foldl
      fkStep g) fk.childTable = some ps → fk.parentTable ∈ ps := by
  induction fks with
  | nil => intro g fk h; simp at h
  | cons f rest ih =>
    intro g fk hfk ps hget
    rw [List.foldl_cons] at hget
    rcases List.mem_cons.mp hfk with hfk | hfk
    · subst hfk
      cases hc : mapGet g fk.childTable with
      | none =>
        rw [show fkStep g fk = g from by rw [fkStep, hc]] at hget
        rw [fkFold_none rest g fk.childTable hc] at hget
        exact absurd hget (by simp)
      | some qs =>
        rw [show fkStep g fk = mapSet g fk.childTable (setAdd qs fk.parentTable) from by
          rw [fkStep, hc]] at hget
        obtain ⟨ps', hget', hmem⟩ := fkFold_mono rest _ fk.childTable fk.parentTable _
          (mapGet_mapSet_self _ _ _) (mem_setAdd_self _ _)
        rw [hget'] at hget
        have hpp : ps' = ps := Option.some.inj hget
        subst hpp
        exact hmem
    · exact ih _ fk hfk ps hget

theorem buildGraph_parent_mem (tables : List String) (fks : List FK) (fk : FK)
    (hfk : fk ∈ fks) (ps : List String)
    (hget : mapGet (buildGraph tables fks) fk.childTable = some ps) :
    fk.parentTable ∈ ps :=
  fkFold_parent_mem fks _ fk hfk ps hget

theorem topoSortTables_ok_state (tables : List String) (fks : List FK) (order : List String)
    (hok : topoSortTables tables fks = .ok order) :
    ∃ st : TopoState, st.res = order ∧
      DfsPost (buildGraph tables fks) ⟨[], [], []⟩ st ∧ ∀ p ∈ tables, p ∈ st.v := by
  rw [topoSortTables] at hok
  cases hlist : dfsList (buildGraph tables fks) (tables.length + 1) tables ⟨[], [], []⟩ with
  | error e => rw [hlist] at hok; simp at hok
  | ok st =>
    rw [hlist] at hok
    have hres : st.res = order := Except.ok.inj hok
    have hInv0 : TopoInv (buildGraph tables fks) ⟨[], [], []⟩ :=
      ⟨List.nodup_nil, by simp, by simp⟩
    obtain ⟨hpost, hall⟩ :=
      (dfs_inv (tables.length + 1)).2 (buildGraph tables fks) tables ⟨[], [], []⟩ st hInv0 hlist
    exact ⟨st, hres, hpost, hall⟩

theorem topoSortTables_nodup (tables : List String) (fks : List FK) (order : List String)
    (hok : topoSortTables tables fks = .ok order) : order.Nodup := by
  obtain ⟨st, hres, hpost, -⟩ := topoSortTables_ok_state tables fks order hok
  rw [← hres]
  exact hpost.1.1

theorem topoSortTables_mem (tables : List String) (fks : List FK) (order : List String)
    (hok : topoSortTables tables fks = .ok order) :
    ∀ x ∈ order, x ∈ tables := by
  obtain ⟨st, hres, hpost, -⟩ := topoSortTables_ok_state tables fks order hok
  intro x hx
  rw [← hres] at hx
  have hxv : x ∈ st.v := (hpost.1.2.1 x).mpr hx
  rcases hpost.2.2.2.2 x hxv with h | ⟨-, hsome⟩
  · simp at h
  · exact (buildGraph_isSome_iff tables fks x).mp hsome

/-- Partial correctness of the DFS topological sort: whenever
`topoSortTables` succeeds, every foreign-key edge whose child table is in
the input set has its parent table strictly before the child in the
returned order. -/
theorem topoSortTables_parent_before_child (tables : List String) (fks : List FK)
    (order : List String) (hok : topoSortTables tables fks = .ok order)
    (fk : FK) (hfk : fk ∈ fks) (hc : fk.childTable ∈ tables) :
    ∃ l₁ l₂ l₃, order = l₁ ++ fk.parentTable :: (l₂ ++ fk.childTable :: l₃) := by
  obtain ⟨st, hres, hpost, hall⟩ := topoSortTables_ok_state tables fks order hok
  have hcv : fk.childTable ∈ st.v := hall fk.childTable hc
  have hcres : fk.childTable ∈ st.res := (hpost.1.2.1 fk.childTable).mp hcv
  obtain ⟨ps, hps⟩ : ∃ ps, mapGet (buildGraph tables fks) fk.childTable = some ps := by
    have := (buildGraph_isSome_iff tables fks fk.childTable).mpr hc
    simpa [Option.isSome_iff_exists] using this
  have hppm : fk.parentTable ∈ ps := buildGraph_parent_mem tables fks fk hfk ps hps
  obtain ⟨l₁, l₂, heq, hpl⟩ := hpost.1.2.2 fk.childTable hcres ps hps fk.parentTable hppm
  obtain ⟨s, u, hsu⟩ := List.append_of_mem hpl
  refine ⟨s, u, l₂, ?_⟩
  rw [← hres, heq, hsu]
  simp

theorem indexOf_decomp_lt {α : Type} [DecidableEq α] (l₁ l₂ l₃ : List α) (a b : α)
    (hnd : (l₁ ++ a :: (l₂ ++ b :: l₃)).Nodup) :
    (l₁ ++ a :: (l₂ ++ b :: l₃)).indexOf a < (l₁ ++ a :: (l₂ ++ b :: l₃)).indexOf b := by
  have hdisj := List.disjoint_of_nodup_append hnd
  have ha1 : a ∉ l₁ := fun h => hdisj h (by simp)
  have hb1 : b ∉ l₁ := fun h => hdisj h (by simp)
  have hrest : (a :: (l₂ ++ b :: l₃)).Nodup := hnd.of_append_right
  have hba : b ≠ a := by
    intro he
    subst he
    exact (List.nodup_cons.mp hrest).1 (by simp)
  rw [List.indexOf_append_of_not_mem ha1, List.indexOf_append_of_not_mem hb1,
    List.indexOf_cons_self, List.indexOf_cons_ne _ (Ne.symm hba)]
  omega

/-- The in-scope foreign-key edge relation: child and parent both belong to
the table set and some listed foreign key joins them. -/
def InScopeEdge (tables : List String) (fks : List FK) (c p : String) : Prop :=
  c ∈ tables ∧ p ∈ tables ∧ ∃ fk ∈ fks, fk.childTable = c ∧ fk.parentTable = p

theorem topoSortTables_rank_lt (tables : List String) (fks : List FK)
    (order : List String) (hok : topoSortTables tables fks = .ok order)
    (c p : String) (hedge : InScopeEdge tables fks c p) :
    order.indexOf p < order.indexOf c := by
  obtain ⟨hc, -, fk, hfk, hfc, hfp⟩ := hedge
  subst hfc; subst hfp
  obtain ⟨l₁, l₂, l₃, heq⟩ :=
    topoSortTables_parent_before_child tables fks order hok fk hfk hc
  have hnd := topoSortTables_nodup tables fks order hok
  rw [heq] at hnd ⊢
  exact indexOf_decomp_lt l₁ l₂ l₃ _ _ hnd

/-- Whenever the cycle-checking sort returns an order at all, the in-scope
edge relation has no cycle: a successful sort certifies acyclicity, so a
cycle can never be silently ignored by `topoSortTables`. -/
theorem topoSortTables_ok_acyclic (tables : List String) (fks : List FK)
    (order : List String) (hok : topoSortTables tables fks = .ok order) :
    ∀ t, ¬ Relation.TransGen (InScopeEdge tables fks) t t := by
  have hlt : ∀ a b, Relation.TransGen (InScopeEdge tables fks) a b →
      order.indexOf b < order.indexOf a := by
    intro a b h
    induction h with
    | single hedge => exact topoSortTables_rank_lt tables fks order hok _ _ hedge
    | tail _ hedge ih =>
      exact lt_trans (topoSortTables_rank_lt tables fks order hok _ _ hedge) ih
  exact fun t htg => lt_irrefl _ (hlt t t htg)

/-! ## Changeset assembly in `run` (`src/diff.ts` lines 253–281) -/

/-- `diffs.get(t)?.inserts` (empty when the table has no diff). -/
def insertsOfTable (diffs : List (String × TableDiff)) (t : String) : List String :=
  match mapGet diffs t with
  | some d => d.inserts
  | none => []

/-- `diffs.get(t)?.updates`. -/
def updatesOfTable (diffs : List (String × TableDiff)) (t : String) : List String :=
  match mapGet diffs t with
  | some d => d.updates
  | none => []

/-- `diffs.get(t)?.deletes`. -/
def deletesOfTable (diffs : List (String × TableDiff)) (t : String) : List String :=
  match mapGet diffs t with
  | some d => d.deletes
  | none => []

/-- `order.forEach(t => diffs.get(t)?.inserts.forEach(x => ins.push(x)))`:
the forward insert sequence. -/
def forwardInserts (order : List String) (diffs : List (String × TableDiff)) : List String :=
  order.flatMap (insertsOfTable diffs)

/-- The forward update sequence. -/
def forwardUpdates (order : List String) (diffs : List (String × TableDiff)) : List String :=
  order.flatMap (updatesOfTable diffs)

/-- `reverse.forEach(t => diffs.get(t)?.deletes.forEach(x => del.push(x)))`:
the delete sequence assembled over the reversed order. -/
def reverseDeletes (order : List String) (diffs : List (String × TableDiff)) : List String :=
  order.reverse.flatMap (deletesOfTable diffs)

/-- C2 (amended).  FK-safe double ordering for the `src/diff.ts` pipeline:
whenever the cycle-checking sort succeeds, in the forward insert and update
sequences every changeset block of a parent table precedes the block of any
of its child tables, and in the delete sequence (assembled over the reversed
order) every child block precedes its parent block. -/
theorem run_fk_safe_double_ordering
    (tables : List String) (fks : List FK) (order : List String)
    (diffs : List (String × TableDiff))
    (hok : topoSortTables tables fks = .ok order)
    (fk : FK) (hfk : fk ∈ fks) (hc : fk.childTable ∈ tables) :
    (∃ l₁ l₂ l₃, forwardInserts order diffs =
      l₁ ++ insertsOfTable diffs fk.parentTable ++ l₂ ++
        insertsOfTable diffs fk.childTable ++ l₃) ∧
    (∃ l₁ l₂ l₃, forwardUpdates order diffs =
      l₁ ++ updatesOfTable diffs fk.parentTable ++ l₂ ++
        updatesOfTable diffs fk.childTable ++ l₃) ∧
    (∃ l₁ l₂ l₃, reverseDeletes order diffs =
      l₁ ++ deletesOfTable diffs fk.childTable ++ l₂ ++
        deletesOfTable diffs fk.parentTable ++ l₃) := by
  obtain ⟨a, b, d, heq⟩ :=
    topoSortTables_parent_before_child tables fks order hok fk hfk hc
  refine ⟨⟨a.flatMap (insertsOfTable diffs), b.flatMap (insertsOfTable diffs),
      d.flatMap (insertsOfTable diffs), ?_⟩,
    ⟨a.flatMap (updatesOfTable diffs), b.flatMap (updatesOfTable diffs),
      d.flatMap (updatesOfTable diffs), ?_⟩,
    ⟨d.reverse.flatMap (deletesOfTable diffs), b.reverse.flatMap (deletesOfTable diffs),
      a.reverse.flatMap (deletesOfTable diffs), ?_⟩⟩
  · rw [forwardInserts, heq]
    simp [List.flatMap_append, List.append_assoc]
  · rw [forwardUpdates, heq]
    simp [List.flatMap_append, List.append_assoc]
  · rw [reverseDeletes, heq]
    simp [List.flatMap_append, List.append_assoc]

/-! ## The variant sort without cycle detection (`part_001` lines 118–137,
`part_002` lines 110–135) -/

/-- One edge step of the `part_002` graph construction: skipped unless both
endpoints are keys; in drop order the parent's set receives the child, in
insert order the child's set receives the parent. -/
def fkStepNC (dropOrder : Bool) (g : Graph) (fk : FK) : Graph :=
  if (mapGet g fk.childTable).isSome && (mapGet g fk.parentTable).isSome then
    if dropOrder then
      match mapGet g fk.parentTable with
      | some ps => mapSet g fk.parentTable (setAdd ps fk.childTable)
      | none => g
    else
      match mapGet g fk.childTable with
      | some ps => mapSet g fk.childTable (setAdd ps fk.parentTable)
      | none => g
  else g

/-- Graph construction of the `part_001`/`part_002` `topoSort`. -/
def buildGraphNC (tables : List String) (fks : List FK) (dropOrder : Bool) : Graph :=
  fks.foldl (fkStepNC dropOrder)
    (tables.foldl (fun g t => mapSet g t ([] : List String)) ([] : Graph))

/-- The `visit` closure of the `part_001`/`part_002` `topoSort`: marks the
node visited, recurses into its neighbours, pushes the node.  It has no
`visiting` stack and no cycle check and never throws.  State is
`(visited, result)`; fuel bounds the recursion depth (unreachable for the
fuel passed by `topoSortNC`). -/
def visitNC (g : Graph) : Nat → String → List String × List String →
    List String × List String
  | 0, _, st => st
  | fuel + 1, t, st =>
    if t ∈ st.1 then st
    else
      let st2 :=
        match mapGet g t with
        | some ps => ps.foldl (fun s p => visitNC g fuel p s) (st.1 ++ [t], st.2)
        | none => (st.1 ++ [t], st.2)
      (st2.1, st2.2 ++ [t])

/-- `part_001`/`part_002` `topoSort`: a total function that always returns
an order, cycles included. -/
def topoSortNC (tables : List String) (fks : List FK) (dropOrder : Bool) : List String :=
  (tables.foldl
    (fun st t => visitNC (buildGraphNC tables fks dropOrder) (tables.length + 1) t st)
    ([], [])).2

/-! ## The `run` pipeline of `src/diff.ts` (lines 240–322) -/

/-- Outcome of a successful run: the files written (name, content) and the
console message.  A "no changes" run writes no files. -/
structure RunResult where
  files : List (String × String)
  message : String
deriving Repr, DecidableEq

/-- `src/diff.ts` `run`, modelled from the point where the metadata queries
have returned: `tables`/`targetTables` are the two `loadTables` results,
`pks` the `loadPKs` map, `fks` the `loadFKs` list, and the fetch functions
stand for the per-table `SELECT *` on each side.  The topological sort runs
before any diffing or file write, so its exception aborts the run with no
output; a failing reference-side fetch likewise aborts.  Files are emitted
only for non-empty document classes, plus the master index. -/
def runCore (tables targetTables : List String) (pks : List (String × TablePK))
    (fks : List FK) (refFetch tgtFetch : String → Except String (List Row)) :
    Except String RunResult :=
  let existing := tables.filter (fun t => targetTables.contains t)
  match topoSortTables existing fks with
  | .error e => .error e
  | .ok order =>
    match order.foldlM (fun (m : List (String × TableDiff)) t =>
        (match diffTable t ((mapGet pks t).getD []) (refFetch t) (tgtFetch t) with
        | .error e => .error e
        | .ok none => .ok m
        | .ok (some d) => .ok (mapSet m t d) :
          Except String (List (String × TableDiff)))) ([] : List (String × TableDiff)) with
    | .error e => .error e
    | .ok diffs =>
      let hasChanges := diffs.any (fun p =>
        !(p.2.inserts.isEmpty && p.2.updates.isEmpty && p.2.deletes.isEmpty))
      if !hasChanges then
        .ok ⟨[], "✅ No data differences detected. Nothing generated."⟩
      else
        let del := reverseDeletes order diffs
        let upd := forwardUpdates order diffs
        let ins := forwardInserts order diffs
        let delFiles := if del.isEmpty then [] else
          [("deletes.yaml", "databaseChangeLog:\n" ++ String.intercalate "\n" del)]
        let updFiles := if upd.isEmpty then [] else
          [("updates.yaml", "databaseChangeLog:\n" ++ String.intercalate "\n" upd)]
        let insFiles := if ins.isEmpty then [] else
          [("inserts.yaml", "databaseChangeLog:\n" ++ String.intercalate "\n" ins)]
        let includes := (if del.isEmpty then [] else ["deletes.yaml"]) ++
          (if upd.isEmpty then [] else ["updates.yaml"]) ++
          (if ins.isEmpty then [] else ["inserts.yaml"])
        let master := ("master-changelog.yaml", "databaseChangeLog:\n" ++
          String.intercalate "\n"
            (includes.map (fun f => "  - include: \x7b file: " ++ f ++ " \x7d")))
        .ok ⟨delFiles ++ updFiles ++ insFiles ++ [master], "✅ Diff generated"⟩

/-- A concrete diff map used to witness the ordering theorem: one insert,
update and delete changeset per table. -/
def exDiffs : List (String × TableDiff) :=
  [("p", ⟨"p", ["ins-p"], ["upd-p"], ["del-p"]⟩),
   ("c", ⟨"c", ["ins-c"], ["upd-c"], ["del-c"]⟩)]

/-- Witness for the double-ordering theorem: tables `p` (parent) and `c`
(child referencing `p`), sorted order `[p, c]`. -/
theorem run_fk_safe_double_ordering_witness :
    (∃ l₁ l₂ l₃, forwardInserts ["p", "c"] exDiffs =
      l₁ ++ insertsOfTable exDiffs "p" ++ l₂ ++ insertsOfTable exDiffs "c" ++ l₃) ∧
    (∃ l₁ l₂ l₃, forwardUpdates ["p", "c"] exDiffs =
      l₁ ++ updatesOfTable exDiffs "p" ++ l₂ ++ updatesOfTable exDiffs "c" ++ l₃) ∧
    (∃ l₁ l₂ l₃, reverseDeletes ["p", "c"] exDiffs =
      l₁ ++ deletesOfTable exDiffs "c" ++ l₂ ++ deletesOfTable exDiffs "p" ++ l₃) :=
  run_fk_safe_double_ordering ["p", "c"] [⟨"c", "p"⟩] ["p", "c"] exDiffs rfl
    ⟨"c", "p"⟩ (by decide) (by decide)

/-- Counterexample to C2 as universally stated: the `part_001`/`part_002`
`topoSort` has no cycle check, and on the cyclic edge set `a→b`, `b→a` it
returns the order `[b, a]`; assembling the forward insert sequence over that
order puts the child table `b`'s insert changeset (edge `b→a`) before its
parent `a`'s. -/
theorem topoSortNC_forward_violation :
    topoSortNC ["a", "b"] [⟨"a", "b"⟩, ⟨"b", "a"⟩] false = ["b", "a"] ∧
    (topoSortNC ["a", "b"] [⟨"a", "b"⟩, ⟨"b", "a"⟩] false).flatMap
      (insertsOfTable [("a", ⟨"a", ["ins-a"], [], []⟩), ("b", ⟨"b", ["ins-b"], [], []⟩)]) =
      ["ins-b", "ins-a"] := by
  constructor
  · rfl
  · rfl

/-- Counterexample to C4 as universally stated: the `part_001`/`part_002`
`topoSort` silently returns a total order over a cyclic foreign-key graph
(`A→B→A`); it has no exception path at all. -/
theorem topoSortNC_cycle_silently_ignored :
    topoSortNC ["a", "b"] [⟨"a", "b"⟩, ⟨"b", "a"⟩] false = ["b", "a"] ∧
    (topoSortNC ["a", "b"] [⟨"a", "b"⟩, ⟨"b", "a"⟩] false).length = 2 := by
  constructor
  · rfl
  · rfl

/-- C4 (amended).  Cycle detection in the cycle-checking sort of
`src/diff.ts`/`src/sync.ts`: on the spec's `A→B→A` example the sort raises
`FK cycle at a` (naming a table on the cycle), the whole run aborts with
that error before emitting any document, and in general whenever
`topoSortTables` does return an order the in-scope edge relation is
acyclic — so this sort never silently ignores a cycle. -/
theorem cycle_detection_amended :
    topoSortTables ["a", "b"] [⟨"a", "b"⟩, ⟨"b", "a"⟩] = .error "FK cycle at a" ∧
    runCore ["a", "b"] ["a", "b"] [("a", ["id"]), ("b", ["id"])]
        [⟨"a", "b"⟩, ⟨"b", "a"⟩] (fun _ => .ok []) (fun _ => .ok []) =
      .error "FK cycle at a" ∧
    ∀ (tables : List String) (fks : List FK) (order : List String),
      topoSortTables tables fks = .ok order →
      ∀ t, ¬ Relation.TransGen (InScopeEdge tables fks) t t := by
  refine ⟨rfl, rfl, ?_⟩
  intro tables fks order hok
  exact topoSortTables_ok_acyclic tables fks order hok

/-- Witness for the amended cycle-detection theorem at a concrete acyclic
input. -/
theorem cycle_detection_amended_witness :
    ¬ Relation.TransGen (InScopeEdge ["p", "c"] [⟨"c", "p"⟩]) "c" "c" :=
  cycle_detection_amended.2.2 ["p", "c"] [⟨"c", "p"⟩] ["p", "c"] rfl "c"

/-! ## Empty diff produces nothing (claim C9) -/

theorem changedCols_self (r : Row) : changedCols r r = [] := by
  rw [changedCols]
  exact List.filter_eq_nil_iff.mpr (fun c _ => by simp)

theorem insertRows_self (rows : List Row) (pk : List String) :
    insertRows rows rows pk = [] := by
  rw [insertRows]
  refine List.filter_eq_nil_iff.mpr (fun r hr => ?_)
  have : mapHas (buildRowMap rows pk) (rowKey r pk) = true :=
    (mapHas_buildRowMap rows pk _).mpr (by simp [keysOf]; exact ⟨r, hr, rfl⟩)
  simp [this]

theorem deleteRows_self (rows : List Row) (pk : List String) :
    deleteRows rows rows pk = [] := by
  rw [deleteRows]
  refine List.filter_eq_nil_iff.mpr (fun r hr => ?_)
  have : mapHas (buildRowMap rows pk) (rowKey r pk) = true :=
    (mapHas_buildRowMap rows pk _).mpr (by simp [keysOf]; exact ⟨r, hr, rfl⟩)
  simp [this]

theorem updatePairs_self (rows : List Row) (pk : List String)
    (hnd : (keysOf rows pk).Nodup) : updatePairs rows rows pk = [] := by
  rw [updatePairs]
  refine List.filterMap_eq_nil_iff.mpr (fun r hr => ?_)
  rw [buildRowMap_get_of_nodup rows pk r hnd hr]
  simp [changedCols_self]

/-- Reconciling a table against itself yields no differences. -/
theorem diffTable_self (t : String) (pk : List String) (rows : List Row)
    (hnd : (keysOf rows pk).Nodup) :
    diffTable t pk (.ok rows) (.ok rows) = .ok none := by
  rw [diffTable]
  by_cases hpk : pk.isEmpty
  · simp [hpk]
  · simp [hpk, insertRows_self, deleteRows_self, updatePairs_self rows pk hnd]

theorem runCore_fold_none (pks : List (String × TablePK))
    (refFetch tgtFetch : String → Except String (List Row)) :
    ∀ (order : List String) (m : List (String × TableDiff)),
    (∀ t ∈ order,
      diffTable t ((mapGet pks t).getD []) (refFetch t) (tgtFetch t) = .ok none) →
    order.foldlM (fun (m : List (String × TableDiff)) t =>
        (match diffTable t ((mapGet pks t).getD []) (refFetch t) (tgtFetch t) with
        | .error e => .error e
        | .ok none => .ok m
        | .ok (some d) => .ok (mapSet m t d) :
          Except String (List (String × TableDiff)))) m = .ok m := by
  intro order
  induction order with
  | nil => intro m _; rfl
  | cons t ts ih =>
    intro m hall
    rw [List.foldlM_cons, hall t (by simp)]
    exact ih m (fun u hu => hall u (by simp [hu]))

/-- C9 (part 1): if the reconciliation of every table in the computed order
yields no diff, the run writes no files and reports the "no changes"
message. -/
theorem runCore_no_changes (tables targetTables : List String)
    (pks : List (String × TablePK)) (fks : List FK)
    (refFetch tgtFetch : String → Except String (List Row)) (order : List String)
    (hok : topoSortTables (tables.filter (fun t => targetTables.contains t)) fks =
      .ok order)
    (hall : ∀ t ∈ order,
      diffTable t ((mapGet pks t).getD []) (refFetch t) (tgtFetch t) = .ok none) :
    runCore tables targetTables pks fks refFetch tgtFetch =
      .ok ⟨[], "✅ No data differences detected. Nothing generated."⟩ := by
  rw [runCore]
  simp only [hok]
  rw [runCore_fold_none pks refFetch tgtFetch order [] hall]
  rfl

/-- C9.  Empty diff produces nothing: a run in which every in-scope table
reconciles to no differences emits no files and reports the "no changes"
success message (not an error); and diffing any table of an identical,
unchanged database pair yields no changesets at all. -/
theorem empty_diff_produces_nothing :
    (∀ (tables targetTables : List String) (pks : List (String × TablePK))
      (fks : List FK) (refFetch tgtFetch : String → Except String (List Row))
      (order : List String),
      topoSortTables (tables.filter (fun t => targetTables.contains t)) fks = .ok order →
      (∀ t ∈ order,
        diffTable t ((mapGet pks t).getD []) (refFetch t) (tgtFetch t) = .ok none) →
      runCore tables targetTables pks fks refFetch tgtFetch =
        .ok ⟨[], "✅ No data differences detected. Nothing generated."⟩) ∧
    (∀ (t : String) (pk : List String) (rows : List Row),
      (keysOf rows pk).Nodup → diffTable t pk (.ok rows) (.ok rows) = .ok none) :=
  ⟨runCore_no_changes, diffTable_self⟩

/-- Witness for C9: a single-table pair with identical row sets produces the
"no changes" result with no files. -/
theorem empty_diff_produces_nothing_witness :
    runCore ["t"] ["t"] [("t", ["id"])] [] (fun _ => .ok exRefRows)
        (fun _ => .ok exRefRows) =
      .ok ⟨[], "✅ No data differences detected. Nothing generated."⟩ ∧
    diffTable "t" ["id"] (.ok exRefRows) (.ok exRefRows) = .ok none := by
  constructor
  · refine empty_diff_produces_nothing.1 ["t"] ["t"] [("t", ["id"])] []
      (fun _ => .ok exRefRows) (fun _ => .ok exRefRows) ["t"] rfl ?_
    intro t ht
    rw [List.mem_singleton] at ht
    subst ht
    exact empty_diff_produces_nothing.2 "t" ["id"] exRefRows (by decide)
  · exact empty_diff_produces_nothing.2 "t" ["id"] exRefRows (by decide)

/-! ## The typed comparison variant (`src/unnamed/part_000`) -/

/-- Digits of a decimal numeral to a natural number. -/
def digitsToNat (l : List Char) : Nat :=
  l.foldl (fun n c => n * 10 + (c.toNat - 48)) 0

/-- Splits a character list on a separator character (the list analogue of
`String.splitOn` for a one-character separator). -/
def splitOnChar (c : Char) : List Char → List (List Char)
  | [] => [[]]
  | x :: xs =>
    let rest := splitOnChar c xs
    if x = c then [] :: rest
    else
      match rest with
      | r :: rs => (x :: r) :: rs
      | [] => [[x]]

/-- Models JavaScript `Number(s)` on plain decimal literals
(`[-]digits[.digits]`): the empty string coerces to `0`, anything outside
that grammar to NaN (`none`).  Exponent forms, infinities and whitespace
trimming are outside the fragment the sources feed it. -/
def parseDecimal (s : String) : Option ℚ :=
  if s = "" then some 0
  else
    let (neg, body) :=
      match s.data with
      | '-' :: rest => (true, rest)
      | chars => (false, chars)
    match splitOnChar '.' body with
    | [intPart] =>
      if !intPart.isEmpty && intPart.all Char.isDigit then
        let mag : Int := digitsToNat intPart
        some (mkRat (if neg then -mag else mag) 1)
      else none
    | [intPart, fracPart] =>
      if intPart.all Char.isDigit && fracPart.all Char.isDigit &&
          (!intPart.isEmpty || !fracPart.isEmpty) then
        let den : Nat := 10 ^ fracPart.length
        let mag : Int := digitsToNat intPart * den + digitsToNat fracPart
        some (mkRat (if neg then -mag else mag) den)
      else none
    | _ => none

/-- JavaScript `Number(v)`; `none` is NaN. -/
def jsNumber : Value → Option ℚ
  | .vnull => some 0
  | .vundef => none
  | .vnum q => some q
  | .vbool b => some (if b then 1 else 0)
  | .vstr s => parseDecimal s
  | .vtime ms => some (ms : ℚ)

/-- JavaScript `Boolean(v)` (truthiness). -/
def jsBool : Value → Bool
  | .vnull => false
  | .vundef => false
  | .vnum q => !(q == 0)
  | .vbool b => b
  | .vstr s => !(s == "")
  | .vtime _ => true

/-- `new Date(value).getTime()` for the timestamp branch; string parsing of
date literals is not modelled (`none` = NaN), which is sound for the claims
here because they never feed that branch a string. -/
def jsDateMillis : Value → Option ℚ
  | .vtime ms => some (ms : ℚ)
  | .vnum q => some q
  | .vbool b => some (if b then 1 else 0)
  | .vnull => some 0
  | .vundef => none
  | .vstr _ => none

/-- The result of `part_000`'s `normalizeValue`: a JS value of one of the
four runtime shapes the function can produce (`none` inside `nnum` is
NaN). -/
inductive NormValue where
  | nnull
  | nnum (q : Option ℚ)
  | nbool (b : Bool)
  | nstr (s : String)
deriving Repr, DecidableEq

/-- The type-class lists of `part_000` (`formatYAMLValue`/`normalizeValue`). -/
def numericTypes : List String :=
  ["integer", "bigint", "smallint", "decimal", "numeric", "real", "double precision"]

/-- `['boolean']`. -/
def booleanTypes : List String := ["boolean"]

/-- `['date']`. -/
def dateTypes : List String := ["date"]

/-- `['timestamp without time zone','timestamp with time zone']`. -/
def timestampTypes : List String :=
  ["timestamp without time zone", "timestamp with time zone"]

/-- `v.toString()`: agrees with `String(v)` on every value reaching it
(`null` is filtered out before any `.toString()` call in the source). -/
def jsToStringMethod (v : Value) : String := jsString v

/-- `part_000` `normalizeValue` (lines 211–223): null first, then numeric →
`Number`, boolean → `Boolean`, date → `toString`, timestamp → epoch
milliseconds, fallback → `toString`. -/
def normalizeValue (v : Value) (dataType : String) : NormValue :=
  if v = .vnull then .nnull
  else if dataType ∈ numericTypes then .nnum (jsNumber v)
  else if dataType ∈ booleanTypes then .nbool (jsBool v)
  else if dataType ∈ dateTypes then .nstr (jsToStringMethod v)
  else if dataType ∈ timestampTypes then .nnum (jsDateMillis v)
  else .nstr (jsToStringMethod v)

/-- JavaScript `===` on the shapes `normalizeValue` produces; `NaN === x`
is always false. -/
def normEq : NormValue → NormValue → Bool
  | .nnull, .nnull => true
  | .nnum (some a), .nnum (some b) => a == b
  | .nnum _, .nnum _ => false
  | .nbool a, .nbool b => a == b
  | .nstr a, .nstr b => a == b
  | _, _ => false

/-- `part_000` `valuesAreEqual` (lines 225–227). -/
def valuesAreEqual (a b : Value) (dataType : String) : Bool :=
  normEq (normalizeValue a dataType) (normalizeValue b dataType)

/-- `part_000` `ColumnInfo`. -/
structure ColumnInfo where
  name : String
  data_type : String
deriving Repr, DecidableEq

/-- `part_000` `UpdateRow`. -/
structure UpdateRow where
  refRow : Row
  targetRow : Row
deriving Repr, DecidableEq

/-- `Array.prototype.join` stringification of one element: `null` and
`undefined` become the empty string (unlike `String(v)`). -/
def joinString (v : Value) : String :=
  match v with
  | .vnull => ""
  | .vundef => ""
  | _ => jsString v

/-- `part_000` `pkToString`: `pkColumns.map(c => row[c]).join('|')`. -/
def pkToString (row : Row) (pkColumns : List String) : String :=
  String.intercalate "|" (pkColumns.map (fun c => joinString (rowGet row c)))

/-- The `pkCondition` of `part_000`'s delete/update generators:
`pkColumns.map(c => c + " = " + row[c]).join(' AND ')` (template-literal
stringification). -/
def pkCondition (row : Row) (pkColumns : List String) : String :=
  String.intercalate " AND " (pkColumns.map (fun c => c ++ " = " ++ jsString (rowGet row c)))

/-- A placeholder injective rendering of the UTC timestamp format of
`formatYAMLValue` (`YYYY-MM-DD hh:mm:ss`); the calendar arithmetic itself
is irrelevant to every claim proved here. -/
def utcRender (q : Option ℚ) : String :=
  match q with
  | some q => "TS-" ++ toString q.num
  | none => "Invalid Date"

/-- `part_000` `formatYAMLValue` (lines 192–209). -/
def formatYAMLValue (v : Value) (dataType : String) : String :=
  if v = .vnull then "null"
  else if dataType ∈ numericTypes then jsToStringMethod v
  else if dataType ∈ booleanTypes then (if jsBool v then "true" else "false")
  else if dataType ∈ dateTypes then "'" ++ jsString v ++ "'"
  else if dataType ∈ timestampTypes then "'" ++ utcRender (jsDateMillis v) ++ "'"
  else "'" ++ escapeQuotes (jsString v) ++ "'"

/-- The `preConditions:` block shared by `part_000`'s delete and update
changesets: `onFail: MARK_RAN` plus a `sqlCheck` asserting that exactly one
row currently matches the key predicate. -/
def sqlCheckPreCondition (t cond : String) : String :=
  "preConditions:\n      onFail: MARK_RAN\n      sqlCheck:\n        expectedResult: 1\n        sql: SELECT COUNT(*) FROM " ++ t ++ " WHERE " ++ cond

/-- `part_000` `generateDeleteYAML` (lines 274–288); `now` is the
`Date.now()` read, made explicit. -/
def generateDeleteYAML (t : String) (row : Row) (pkColumns : List String)
    (now : ℤ) : String :=
  ("- changeSet:\n    id: " ++ t ++ "-delete-" ++ pkToString row pkColumns ++ "-" ++
    toString now ++ "\n    author: auto-generated\n    ") ++
  sqlCheckPreCondition t (pkCondition row pkColumns) ++
  ("\n    changes:\n      - delete:\n          tableName: " ++ t ++
    "\n          where: " ++ pkCondition row pkColumns)

/-- The columns `generateBatchedUpdateYAML` includes for one update: those
whose `valuesAreEqual` test fails (the `if` guarding each `columnsYaml`
append). -/
def updChangedCols (u : UpdateRow) (columns : List ColumnInfo) : List ColumnInfo :=
  columns.filter (fun col =>
    !valuesAreEqual (rowGet u.refRow col.name) (rowGet u.targetRow col.name) col.data_type)

/-- One `- column:` block of `generateBatchedUpdateYAML`'s `columnsYaml`. -/
def updColChunk (u : UpdateRow) (col : ColumnInfo) : String :=
  "            - column:\n                name: " ++ col.name ++
  "\n                value: " ++ formatYAMLValue (rowGet u.refRow col.name) col.data_type ++
  "\n"

/-- The full text of one `part_000` update changeset, given its assembled
`columnsYaml`. -/
def updateChangeSetYAML (t : String) (u : UpdateRow) (pkColumns : List String)
    (columnsYaml : String) (now : ℤ) : String :=
  ("- changeSet:\n    id: " ++ t ++ "-update-" ++ pkToString u.refRow pkColumns ++ "-" ++
    toString now ++ "\n    author: auto-generated\n    ") ++
  sqlCheckPreCondition t (pkCondition u.refRow pkColumns) ++
  ("\n    changes:\n      - update:\n          tableName: " ++ t ++
    "\n          columns:\n" ++ columnsYaml ++ "          where: " ++
    pkCondition u.refRow pkColumns)

/-- `part_000` `generateBatchedUpdateYAML` (lines 314–341): for each update
pair, build `columnsYaml` from the typed-unequal columns and push a
changeset only when it is non-empty (`if(columnsYaml)`). -/
def generateBatchedUpdateYAML (t : String) (updates : List UpdateRow)
    (pkColumns : List String) (columns : List ColumnInfo) (now : ℤ) : List String :=
  updates.filterMap (fun u =>
    let columnsYaml := String.join ((updChangedCols u columns).map (updColChunk u))
    if columnsYaml = "" then none
    else some (updateChangeSetYAML t u pkColumns columnsYaml now))

/-! ## Row-fetch error handling (claim C6) -/

/-- Counterexample to C6: a failing target-side row fetch is caught by the
empty `catch {}` of `diffTable` and the table is treated exactly as if it
were empty on the target — every reference row becomes an insert and no
error surfaces. -/
theorem target_fetch_error_swallowed :
    diffTable "t" ["id"] (.ok exRefRows) (.error "connection refused") =
      diffTable "t" ["id"] (.ok exRefRows) (.ok []) ∧
    ∃ d : TableDiff,
      diffTable "t" ["id"] (.ok exRefRows) (.error "connection refused") =
        .ok (some d) ∧ d.inserts.length = 2 ∧ d.updates = [] ∧ d.deletes = [] := by
  refine ⟨rfl, ⟨"t", (insertRows exRefRows [] ["id"]).map (fun r => insertCS "t" r ["id"]),
    [], []⟩, ?_, ?_, rfl, rfl⟩
  · rfl
  · rfl

/-- C6 (amended).  The reference-side fetch error propagates and aborts the
table's diff, but the target-side fetch error is silently swallowed: the
result is identical to diffing against an empty target. -/
theorem row_fetch_error_policy (t : String) (pk : List String)
    (hpk : pk.isEmpty = false) :
    (∀ (e : String) (tgtFetch : Except String (List Row)),
      diffTable t pk (.error e) tgtFetch = .error e) ∧
    (∀ (e : String) (refFetch : Except String (List Row)),
      diffTable t pk refFetch (.error e) = diffTable t pk refFetch (.ok [])) := by
  constructor
  · intro e tgtFetch
    rw [diffTable]
    simp [hpk]
  · intro e refFetch
    rfl

/-- Witness for the amended C6 theorem at concrete inputs. -/
theorem row_fetch_error_policy_witness :
    diffTable "t" ["id"] (.error "boom") (.ok []) = .error "boom" ∧
    diffTable "t" ["id"] (.ok exRefRows) (.error "boom") =
      diffTable "t" ["id"] (.ok exRefRows) (.ok []) :=
  ⟨(row_fetch_error_policy "t" ["id"] rfl).1 "boom" (.ok []),
   (row_fetch_error_policy "t" ["id"] rfl).2 "boom" (.ok exRefRows)⟩

/-! ## Typed versus textual value comparison (claim C3) -/

/-- Counterexample to C3: on a `numeric` column holding `'1.0'` on the
reference side and `'1.00'` on the target side — the same typed value, so
the type-aware equality of `part_000` judges them equal — the `diffTable`
reconciler of `src/diff.ts` compares `String()` renderings, marks the
column changed, and emits an Update changeset. -/
theorem string_comparison_not_type_aware :
    valuesAreEqual (.vstr "1.0") (.vstr "1.00") "numeric" = true ∧
    changedCols [("id", .vnum 1), ("price", .vstr "1.0")]
        [("id", .vnum 1), ("price", .vstr "1.00")] = ["price"] ∧
    diffTable "t" ["id"] (.ok [[("id", .vnum 1), ("price", .vstr "1.0")]])
        (.ok [[("id", .vnum 1), ("price", .vstr "1.00")]]) =
      .ok (some ⟨"t", [],
        [updateCS "t" [("id", .vnum 1), ("price", .vstr "1.0")] ["price"] ["id"]], []⟩) := by
  refine ⟨by decide, by decide, ?_⟩
  rfl

/-- C3 (amended).  The `part_000` update generator selects columns by the
type-aware `valuesAreEqual` (numeric types compared as numbers after
`Number()` coercion), while the `diffTable` reconciler of
`src/diff.ts`/`src/sync.ts` selects columns by bare `String()` textual
equality. -/
theorem value_comparison_amended :
    (∀ (u : UpdateRow) (columns : List ColumnInfo) (col : ColumnInfo),
      col ∈ updChangedCols u columns ↔ col ∈ columns ∧
        valuesAreEqual (rowGet u.refRow col.name) (rowGet u.targetRow col.name)
          col.data_type = false) ∧
    (∀ (r tRow : Row) (c : String),
      c ∈ changedCols r tRow ↔ c ∈ r.map Prod.fst ∧
        jsString (rowGet r c) ≠ jsString (rowGet tRow c)) ∧
    (∀ (a b : Value) (dt : String) (q₁ q₂ : ℚ), dt ∈ numericTypes →
      a ≠ .vnull → b ≠ .vnull → jsNumber a = some q₁ → jsNumber b = some q₂ →
      (valuesAreEqual a b dt = true ↔ q₁ = q₂)) := by
  refine ⟨?_, ?_, ?_⟩
  · intro u columns col
    simp [updChangedCols, List.mem_filter]
  · intro r tRow c
    simp [changedCols, List.mem_filter]
  · intro a b dt q₁ q₂ hdt ha hb hqa hqb
    rw [valuesAreEqual, normalizeValue, normalizeValue]
    simp [ha, hb, hdt, hqa, hqb, normEq]

/-- Witness for the amended comparison theorem: the number `1` and the
string `'1.0'` are judged equal on an `integer` column by `part_000`'s
comparison. -/
theorem value_comparison_amended_witness :
    valuesAreEqual (.vnum 1) (.vstr "1.0") "integer" = true :=
  (value_comparison_amended.2.2 (.vnum 1) (.vstr "1.0") "integer" 1 1 (by decide)
    (by decide) (by decide) rfl (by decide)).mpr rfl

/-! ## Update minimality (claim C5) -/

/-- Counterexample to C5 as universally stated: for the typed-equal pair
`'1.0'`/`'1.00'` on a `numeric` column, the update changeset emitted by
`diffTable` lists the column `price` even though its typed-normalized
values are equal. -/
theorem update_includes_typed_equal_column :
    valuesAreEqual (.vstr "1.0") (.vstr "1.00") "numeric" = true ∧
    (updatePairs [[("id", .vnum 1), ("price", .vstr "1.0")]]
        [[("id", .vnum 1), ("price", .vstr "1.00")]] ["id"]).map
      (fun p => changedCols p.1 p.2) = [["price"]] := by
  constructor
  · decide
  · decide

/-- C5 (amended).  Update minimality relative to each variant's own
comparison: `diffTable` updates carry exactly the columns whose `String()`
renderings differ and are emitted only when at least one such column
exists; `part_000` updates carry exactly the columns whose typed-normalized
values differ (`valuesAreEqual` false) and a changeset is pushed only when
that set is non-empty.  Neither is ever a full-row rewrite. -/
theorem update_minimality_amended :
    (∀ (r tRow : Row) (c : String), c ∈ changedCols r tRow →
      jsString (rowGet r c) ≠ jsString (rowGet tRow c)) ∧
    (∀ (refRows tgtRows : List Row) (pk : List String) (p : Row × Row),
      p ∈ updatePairs refRows tgtRows pk → changedCols p.1 p.2 ≠ []) ∧
    (∀ (u : UpdateRow) (columns : List ColumnInfo) (col : ColumnInfo),
      col ∈ updChangedCols u columns →
      valuesAreEqual (rowGet u.refRow col.name) (rowGet u.targetRow col.name)
        col.data_type = false) ∧
    (∀ (t : String) (updates : List UpdateRow) (pkColumns : List String)
      (columns : List ColumnInfo) (now : ℤ) (s : String),
      s ∈ generateBatchedUpdateYAML t updates pkColumns columns now →
      ∃ u ∈ updates, updChangedCols u columns ≠ []) := by
  refine ⟨?_, ?_, ?_, ?_⟩
  · intro r tRow c hc
    have := (List.mem_filter.mp hc).2
    simpa using this
  · intro refRows tgtRows pk p hp
    rw [updatePairs] at hp
    obtain ⟨r, -, hmatch⟩ := List.mem_filterMap.mp hp
    rcases hget : mapGet (buildRowMap tgtRows pk) (rowKey r pk) with _ | tRow <;>
      simp only [hget] at hmatch
    · exact absurd hmatch (by simp)
    · by_cases hch : (changedCols r tRow).isEmpty = true
      · rw [if_pos hch] at hmatch
        simp at hmatch
      · rw [if_neg hch] at hmatch
        have hp' := Option.some.inj hmatch
        subst hp'
        exact fun hnil => hch (by simp [hnil])
  · intro u columns col hcol
    have := (List.mem_filter.mp hcol).2
    simpa using this
  · intro t updates pkColumns columns now s hs
    rw [generateBatchedUpdateYAML] at hs
    obtain ⟨u, hu, hmatch⟩ := List.mem_filterMap.mp hs
    by_cases hy : String.join ((updChangedCols u columns).map (updColChunk u)) = ""
    · simp [hy] at hmatch
    · refine ⟨u, hu, fun hnil => hy ?_⟩
      rw [hnil]
      rfl

/-- Witness for the amended update-minimality theorem: a changed column's
renderings indeed differ. -/
theorem update_minimality_amended_witness :
    jsString (rowGet [("id", Value.vnum 1), ("name", Value.vstr "a")] "name") ≠
      jsString (rowGet [("id", Value.vnum 1), ("name", Value.vstr "x")] "name") :=
  update_minimality_amended.1 [("id", Value.vnum 1), ("name", Value.vstr "a")]
    [("id", Value.vnum 1), ("name", Value.vstr "x")] "name" (by decide)

/-! ## Deterministic identifiers (claim C7) -/

/-- Counterexample to C7: the `part_000` delete changeset embeds
`Date.now()` in its identifier, so two runs at different instants emit
different document content for the same table, row and key. -/
theorem changeset_id_depends_on_clock :
    generateDeleteYAML "t" [("id", .vnum 1)] ["id"] 0 ≠
      generateDeleteYAML "t" [("id", .vnum 1)] ["id"] 1 := by
  decide

/-- C7 (amended).  The `src/diff.ts` changeset builders carry identifiers
of the exact shape `table-kind-rowKey`, placed at the head of the changeset
text, and the identifier depends only on the table name, the operation kind
and the row key — no clock or sequence state enters any of these
builders. -/
theorem changeset_ids_stable :
    (∀ (t : String) (r : Row) (pk : List String), ∃ rest,
      insertCS t r pk = ("\n- changeSet:\n    id: " ++ insertId t r pk) ++ rest) ∧
    (∀ (t : String) (r : Row) (cols pk : List String), ∃ rest,
      updateCS t r cols pk = ("\n- changeSet:\n    id: " ++ updateId t r pk) ++ rest) ∧
    (∀ (t : String) (r : Row) (pk : List String), ∃ rest,
      deleteCS t r pk = ("\n- changeSet:\n    id: " ++ deleteId t r pk) ++ rest) ∧
    (∀ (t : String) (r r' : Row) (pk : List String), rowKey r pk = rowKey r' pk →
      insertId t r pk = insertId t r' pk ∧ updateId t r pk = updateId t r' pk ∧
        deleteId t r pk = deleteId t r' pk) := by
  refine ⟨fun t r pk => ⟨_, rfl⟩, fun t r cols pk => ⟨_, rfl⟩,
    fun t r pk => ⟨_, rfl⟩, ?_⟩
  intro t r r' pk h
  refine ⟨?_, ?_, ?_⟩ <;> simp [insertId, updateId, deleteId, h]

/-- Witness for the stable-identifier theorem: two rows with the same key
but different non-key columns get identical changeset ids. -/
theorem changeset_ids_stable_witness :
    insertId "t" [("id", Value.vnum 1), ("a", Value.vstr "x")] ["id"] =
      insertId "t" [("id", Value.vnum 1), ("a", Value.vstr "y")] ["id"] ∧
    updateId "t" [("id", Value.vnum 1), ("a", Value.vstr "x")] ["id"] =
      updateId "t" [("id", Value.vnum 1), ("a", Value.vstr "y")] ["id"] ∧
    deleteId "t" [("id", Value.vnum 1), ("a", Value.vstr "x")] ["id"] =
      deleteId "t" [("id", Value.vnum 1), ("a", Value.vstr "y")] ["id"] :=
  changeset_ids_stable.2.2.2 "t" [("id", Value.vnum 1), ("a", Value.vstr "x")]
    [("id", Value.vnum 1), ("a", Value.vstr "y")] ["id"] (by decide)

/-! ## Replay pre-conditions (claim C8) -/

/-- Boolean prefix test on character lists. -/
def startsWithChars : List Char → List Char → Bool
  | [], _ => true
  | _ :: _, [] => false
  | a :: as, b :: bs => a == b && startsWithChars as bs

/-- Boolean substring test: does `needle` occur contiguously in `hay`? -/
def containsSubstr (hay needle : String) : Bool :=
  go needle.data hay.data
where
  go (needle : List Char) : List Char → Bool
    | [] => startsWithChars needle []
    | c :: rest => startsWithChars needle (c :: rest) || go needle rest

set_option maxRecDepth 8192 in
/-- Counterexample to C8: the `src/diff.ts` update and delete changesets
(row changesets that mutate existing rows) carry no pre-condition at all —
the text `preConditions` does not occur in them. -/
theorem diffts_changesets_lack_preconditions :
    containsSubstr (updateCS "t" [("id", Value.vnum 1), ("name", Value.vstr "a")]
      ["name"] ["id"]) "preConditions" = false ∧
    containsSubstr (deleteCS "t" [("id", Value.vnum 1)] ["id"]) "preConditions" = false := by
  constructor
  · rfl
  · rfl

set_option maxRecDepth 8192 in
/-- C8 (amended).  Only the `part_000` generators attach replay
pre-conditions: every delete changeset and every emitted update changeset
contains the `onFail: MARK_RAN` `sqlCheck` block asserting that exactly one
row matches the key predicate; the `src/diff.ts` update and delete
changesets carry none. -/
theorem replay_preconditions_amended :
    (∀ (t : String) (row : Row) (pkColumns : List String) (now : ℤ), ∃ a b,
      generateDeleteYAML t row pkColumns now =
        a ++ sqlCheckPreCondition t (pkCondition row pkColumns) ++ b) ∧
    (∀ (t : String) (updates : List UpdateRow) (pkColumns : List String)
      (columns : List ColumnInfo) (now : ℤ) (s : String),
      s ∈ generateBatchedUpdateYAML t updates pkColumns columns now →
      ∃ u a b, u ∈ updates ∧
        s = a ++ sqlCheckPreCondition t (pkCondition u.refRow pkColumns) ++ b) ∧
    containsSubstr (updateCS "t" [("id", Value.vnum 1), ("name", Value.vstr "a")]
      ["name"] ["id"]) "preConditions" = false ∧
    containsSubstr (deleteCS "t" [("id", Value.vnum 1)] ["id"]) "preConditions" = false := by
  refine ⟨fun t row pkColumns now => ⟨_, _, rfl⟩, ?_, rfl, rfl⟩
  intro t updates pkColumns columns now s hs
  rw [generateBatchedUpdateYAML] at hs
  obtain ⟨u, hu, hmatch⟩ := List.mem_filterMap.mp hs
  by_cases hy : String.join ((updChangedCols u columns).map (updColChunk u)) = ""
  · simp [hy] at hmatch
  · simp only [hy, if_neg, if_false] at hmatch
    refine ⟨u,
      "- changeSet:\n    id: " ++ t ++ "-update-" ++ pkToString u.refRow pkColumns ++
        "-" ++ toString now ++ "\n    author: auto-generated\n    ",
      "\n    changes:\n      - update:\n          tableName: " ++ t ++
        "\n          columns:\n" ++
        String.join ((updChangedCols u columns).map (updColChunk u)) ++
        "          where: " ++ pkCondition u.refRow pkColumns,
      hu, ?_⟩
    rw [← Option.some.inj hmatch]
    rfl

/-- Witness for the amended pre-condition theorem at a concrete delete. -/
theorem replay_preconditions_amended_witness :
    ∃ a b, generateDeleteYAML "t" [("id", Value.vnum 1)] ["id"] 7 =
      a ++ sqlCheckPreCondition "t" (pkCondition [("id", Value.vnum 1)] ["id"]) ++ b :=
  replay_preconditions_amended.1 "t" [("id", Value.vnum 1)] ["id"] 7

/-! ## RowKey serialization is not injective (claim C10) -/

/-- C10.  Pipe-joined row keys collide: the distinct rows
`('a|b','c')` and `('a','b|c')` share the key `"a|b|c"`, the JS `Map` built
from them keeps only the later row, and hence the reconciler sees a single
row where the table has two. -/
theorem rowKey_not_injective :
    ([("a", Value.vstr "a|b"), ("b", Value.vstr "c")] : Row) ≠
      [("a", Value.vstr "a"), ("b", Value.vstr "b|c")] ∧
    rowKey [("a", Value.vstr "a|b"), ("b", Value.vstr "c")] ["a", "b"] = "a|b|c" ∧
    rowKey [("a", Value.vstr "a"), ("b", Value.vstr "b|c")] ["a", "b"] = "a|b|c" ∧
    keysOf [[("a", Value.vstr "a|b"), ("b", Value.vstr "c")],
      [("a", Value.vstr "a"), ("b", Value.vstr "b|c")]] ["a", "b"] = ["a|b|c", "a|b|c"] ∧
    (buildRowMap [[("a", Value.vstr "a|b"), ("b", Value.vstr "c")],
      [("a", Value.vstr "a"), ("b", Value.vstr "b|c")]] ["a", "b"]).length = 1 ∧
    mapGet (buildRowMap [[("a", Value.vstr "a|b"), ("b", Value.vstr "c")],
        [("a", Value.vstr "a"), ("b", Value.vstr "b|c")]] ["a", "b"]) "a|b|c" =
      some [("a", Value.vstr "a"), ("b", Value.vstr "b|c")] := by
  refine ⟨by decide, by decide, by decide, by decide, by decide, by decide⟩

end PlmDiff
